import Mathlib

/-!
# Note chart loading and timing judgment (`Main.cpp`)

A shallow embedding of the chart loader `LoadNotes`, the position helper
`GetNotePos` and the per-frame judgment scan of `Main`, followed by the
properties established about them.

Conventions of the embedding:

* `int32` values are integers; every `int32` arithmetic result is normalised
  with `wrapInt32` (two's-complement wrap-around modulo `2^32`).  C++ leaves
  signed overflow undefined, so a statement that relates an `int32` result to
  the exact integer result carries the hypothesis that the exact result fits.
* `double` values are rationals.  The only `double` operations in the
  embedded code are conversions from `int32`, a product with `0.25` and sums
  with small constants.
* `String` is `List Char`; a `TextReader` is the list of lines it yields.
* Code that can throw returns `Except`.  An out-of-range index into the
  four-element `Keys` table is reported as `TickError.indexOutOfRange`.
-/

namespace NotesGame

deriving instance DecidableEq for Except

/-! ## Machine integers -/

/-- Normalisation of an integer to the `int32` range (two's complement). -/
def wrapInt32 (x : Int) : Int :=
  (x + 2147483648) % 4294967296 - 2147483648

/-- Values representable as `int32`. -/
def InInt32 (x : Int) : Prop :=
  -2147483648 ≤ x ∧ x ≤ 2147483647

instance (x : Int) : Decidable (InInt32 x) := by
  unfold InInt32; infer_instance

/-- Modelled from the spec: `Abs` is a framework function whose source is not
part of the repository; the spec reads `Abs(diffMillisec)` as the absolute
value `|offset|`.  Its result is an `int32`, so the negation of a negative
argument is normalised like every other `int32` result. -/
def Abs (x : Int) : Int :=
  wrapInt32 (if x < 0 then -x else x)

/-! ## Data model -/

/-- `struct Note`: target time, key index and the `active` flag
(`false` once the note has disappeared). -/
structure Note where
  time : Int
  key : Int
  active : Bool := true
  deriving DecidableEq, Repr

/-- `Vec2`: a pair of `double` coordinates. -/
structure Vec2 where
  x : ℚ
  y : ℚ
  deriving DecidableEq

/-- The four judgment keys. -/
inductive Input where
  | KeyA
  | KeyS
  | KeyD
  | KeyF
  deriving DecidableEq, Repr

/-- `const Array<Input> Keys = { KeyA, KeyS, KeyD, KeyF };` -/
def Keys : List Input :=
  [Input.KeyA, Input.KeyS, Input.KeyD, Input.KeyF]

/-- `Keys[key]` for an `int32` index: a negative index converts to a huge
unsigned one, so only `0 ≤ key < Keys.size()` is in bounds. -/
def keysAt (key : Int) : Option Input :=
  if 0 ≤ key then Keys[key.toNat]? else none

/-- `GetNotePos`: screen position of a note at time `time`.
`x = 250 + note.key * 100` is computed in `int32` and converted;
`y = 500 - (note.time - time) * 0.25` multiplies an `int32` difference by a
`double`. -/
def GetNotePos (note : Note) (time : Int) : Vec2 :=
  { x := ((wrapInt32 (250 + wrapInt32 (note.key * 100)) : Int) : ℚ)
    y := 500 - ((wrapInt32 (note.time - time) : Int) : ℚ) * (1 / 4) }

/-- The text `NoteEffect::update` draws. -/
inductive ScoreText where
  | Excellent
  | Good
  deriving DecidableEq, Repr

/-- `struct NoteEffect`: start position and score (the font is a rendering
resource and is not modelled). -/
structure NoteEffect where
  m_start : Vec2
  m_score : Int
  deriving DecidableEq

/-- The branch of `NoteEffect::update` on `m_score`: `2` draws "Excellent",
`1` draws "Good", any other score draws no text. -/
def NoteEffect.updateText (e : NoteEffect) : Option ScoreText :=
  if e.m_score = 2 then some ScoreText.Excellent
  else if e.m_score = 1 then some ScoreText.Good
  else none

/-! ## Judgment scan -/

/-- Failure of the judgment scan. -/
inductive TickError where
  | indexOutOfRange
  deriving DecidableEq, Repr

/-- One pass of the body of `for (auto& note : notes)` in `Main`, at frame time
`time`, where `down k` tells whether key `k` went down on this frame.
Returns the note after the pass and the effect added for it, if any. -/
def judgeNote (down : Input → Bool) (time : Int) (note : Note) :
    Except TickError (Note × Option NoteEffect) :=
  if note.active = false then
    Except.ok (note, none)
  else
    let diffMillisec := wrapInt32 (time - note.time)
    let hit : Except TickError (Note × Option NoteEffect) :=
      if Abs diffMillisec < 250 then
        match keysAt note.key with
        | none => Except.error TickError.indexOutOfRange
        | some k =>
          if down k = true then
            let note1 : Note := { note with active := false }
            let notePos := GetNotePos note1 time
            Except.ok (note1,
              some { m_start := { x := notePos.x, y := 500 }
                     m_score := if Abs diffMillisec < 80 then 2 else 1 })
          else
            Except.ok (note, none)
      else
        Except.ok (note, none)
    match hit with
    | Except.error e => Except.error e
    | Except.ok (note2, fx) =>
      if note2.active = true ∧ 250 ≤ diffMillisec then
        Except.ok ({ note2 with active := false }, fx)
      else
        Except.ok (note2, fx)

/-- The judgment loop `for (auto& note : notes)` of one frame: the outcome of
every note, in chart order. -/
def judgmentScan (down : Input → Bool) (time : Int) :
    List Note → Except TickError (List (Note × Option NoteEffect))
  | [] => Except.ok []
  | note :: rest =>
    match judgeNote down time note with
    | Except.error e => Except.error e
    | Except.ok out =>
      match judgmentScan down time rest with
      | Except.error e => Except.error e
      | Except.ok outs => Except.ok (out :: outs)

/-- The note array after a scan. -/
def notesAfter (outs : List (Note × Option NoteEffect)) : List Note :=
  outs.map Prod.fst

/-- The effects a scan added to `effect`, in order. -/
def effectsAdded (outs : List (Note × Option NoteEffect)) : List NoteEffect :=
  outs.filterMap Prod.snd

/-- One frame as seen by a single note. -/
structure Frame where
  time : Int
  down : Input → Bool

/-- The successive outcomes of one note over a sequence of frames. -/
def noteSession : List Frame → Note → Except TickError (List (Note × Option NoteEffect))
  | [], _ => Except.ok []
  | f :: fs, note =>
    match judgeNote f.down f.time note with
    | Except.error e => Except.error e
    | Except.ok out =>
      match noteSession fs out.1 with
      | Except.error e => Except.error e
      | Except.ok outs => Except.ok (out :: outs)

/-- Number of adjacent positions at which a sequence of `active` flags changes. -/
def stateChanges : List Bool → Nat
  | a :: b :: rest => (if a = b then 0 else 1) + stateChanges (b :: rest)
  | _ => 0

/-- Number of outcomes that carry an effect. -/
def hitCount (outs : List (Note × Option NoteEffect)) : Nat :=
  (effectsAdded outs).length

/-! ## Chart loader -/

/-- The ways `LoadNotes` fails: the chart cannot be opened (`Error` thrown at
the top of `LoadNotes`), a line does not have two fields (`Error` thrown in
the loop), or a field is not an integer (thrown by `Parse<int32>`). -/
inductive LoadError where
  | notFound
  | invalidChart
  | parseError
  deriving DecidableEq, Repr

/-- The errors that reject a chart line; a parse failure counts as a
malformed line. -/
def LoadError.isMalformedLine : LoadError → Bool
  | LoadError.notFound => false
  | LoadError.invalidChart => true
  | LoadError.parseError => true

/-- Loop of `split`: `cur` is the field being collected. -/
def splitLoop (ch : Char) : List Char → List Char → List (List Char)
  | [], cur => [cur]
  | c :: cs, cur =>
    if c = ch then cur :: splitLoop ch cs [] else splitLoop ch cs (cur ++ [c])

/-- Modelled from the spec: `String::split(ch)` is a framework function whose
source is not part of the repository.  The line is cut at every occurrence of
the delimiter character, so consecutive delimiters give empty fields; the
empty string has no fields. -/
def split (s : List Char) (ch : Char) : List (List Char) :=
  if s = [] then [] else splitLoop ch s []

/-- The ten decimal digit characters, in order of value. -/
def digitChars : List Char :=
  ['0', '1', '2', '3', '4', '5', '6', '7', '8', '9']

/-- Value of a string of decimal digits, most significant first. -/
def digitsValue (ds : List Char) : Nat :=
  ds.foldl (fun acc c => 10 * acc + digitChars.indexOf c) 0

/-- Modelled from the spec: `Parse<int32>` is the framework's text-to-integer
conversion, whose source is not part of the repository.  It accepts a base-10
signed integer (an optional sign followed by at least one decimal digit); as
its result is an `int32`, the value must be representable as one.  Every
other text is a parse failure. -/
def Parse (s : List Char) : Except LoadError Int :=
  let body : Bool × List Char :=
    match s with
    | [] => (false, [])
    | c :: rest =>
      if c = '-' then (true, rest) else if c = '+' then (false, rest) else (false, s)
  if body.2 = [] ∨ ¬ (∀ c ∈ body.2, c ∈ digitChars) then
    Except.error LoadError.parseError
  else
    let v : Int := if body.1 = true then -(digitsValue body.2 : Int) else (digitsValue body.2 : Int)
    if InInt32 v then Except.ok v else Except.error LoadError.parseError

/-- The `while (reader.readLine(line))` loop of `LoadNotes`; `notes` is the
array built so far. -/
def readLoop : List (List Char) → List Note → Except LoadError (List Note)
  | [], notes => Except.ok notes
  | line :: rest, notes =>
    if line = [] then
      readLoop rest notes
    else
      match split line ' ' with
      | [p0, p1] =>
        match Parse p0, Parse p1 with
        | Except.ok t, Except.ok k =>
          readLoop rest (notes ++ [{ time := t, key := k, active := true }])
        | _, _ => Except.error LoadError.parseError
      | _ => Except.error LoadError.invalidChart

/-- `LoadNotes`: `reader` is `none` when the chart cannot be opened, and
otherwise holds the lines that successive `readLine` calls return. -/
def LoadNotes (reader : Option (List (List Char))) : Except LoadError (List Note) :=
  match reader with
  | none => Except.error LoadError.notFound
  | some lines => readLoop lines []

/-! ### Written form of integers -/

/-- Sign of a written integer. -/
inductive Sign where
  | bare
  | plus
  | minus
  deriving DecidableEq, Repr

/-- A base-10 signed integer as written: a sign and its decimal digits, most
significant first. -/
structure Numeral where
  sign : Sign
  digits : List (Fin 10)
  deriving DecidableEq

/-- The character of a decimal digit. -/
def digitChar (d : Fin 10) : Char :=
  digitChars.getD d.val '0'

/-- The characters of a sign. -/
def Sign.text : Sign → List Char
  | Sign.bare => []
  | Sign.plus => ['+']
  | Sign.minus => ['-']

/-- The text of a written integer. -/
def Numeral.text (n : Numeral) : List Char :=
  n.sign.text ++ n.digits.map digitChar

/-- The positional value of the digits of a written integer. -/
def Numeral.magnitude (n : Numeral) : Nat :=
  Nat.ofDigits 10 (n.digits.reverse.map Fin.val)

/-- The integer a written integer denotes. -/
def Numeral.value (n : Numeral) : Int :=
  match n.sign with
  | Sign.minus => -(n.magnitude : Int)
  | _ => (n.magnitude : Int)

/-- A token is a base-10 signed integer when it is the text of a written
integer with at least one digit. -/
def IsIntLiteral (tok : List Char) : Prop :=
  ∃ n : Numeral, n.digits ≠ [] ∧ tok = n.text

/-- A line is rejected when it is non-empty and either does not split into
exactly two fields or has a field that is not a base-10 signed integer. -/
def BadLine (l : List Char) : Prop :=
  l ≠ [] ∧ ((split l ' ').length ≠ 2 ∨ ∃ tok ∈ split l ' ', ¬ IsIntLiteral tok)

/-- A line of a chart: blank, or two written integers. -/
abbrev ChartLine := Option (Numeral × Numeral)

/-- The text of a chart line: empty, or the two integers separated by one
space. -/
def ChartLine.text : ChartLine → List Char
  | none => []
  | some (t, k) => t.text ++ ' ' :: k.text

/-- A chart line is well formed when it is blank or when both its integers
have at least one digit and a value that fits in the `int32` fields of a
note. -/
def ChartLine.WellFormed : ChartLine → Prop
  | none => True
  | some (t, k) => t.digits ≠ [] ∧ k.digits ≠ [] ∧ InInt32 t.value ∧ InInt32 k.value

instance (l : ChartLine) : Decidable l.WellFormed :=
  match l with
  | none => isTrue trivial
  | some (t, k) =>
    inferInstanceAs
      (Decidable (t.digits ≠ [] ∧ k.digits ≠ [] ∧ InInt32 t.value ∧ InInt32 k.value))

/-- The note a chart line describes. -/
def ChartLine.note : ChartLine → Option Note
  | none => none
  | some (t, k) => some { time := t.value, key := k.value, active := true }

/-! ## Evaluation on sample inputs -/

theorem LoadNotes_sample :
    LoadNotes (some ["1000 0".toList, "".toList, "1500 2".toList])
    = Except.ok [⟨1000, 0, true⟩, ⟨1500, 2, true⟩] := by decide

theorem LoadNotes_sample_abc :
    LoadNotes (some ["abc 1".toList]) = Except.error LoadError.parseError := by decide

theorem LoadNotes_sample_space :
    LoadNotes (some ["1000 0".toList, " ".toList]) = Except.error LoadError.parseError := by
  decide

theorem LoadNotes_sample_two_spaces :
    LoadNotes (some ["1000 0".toList, "  ".toList]) = Except.error LoadError.invalidChart := by
  decide

theorem LoadNotes_sample_signs :
    LoadNotes (some ["-2147483648 +7".toList]) = Except.ok [⟨-2147483648, 7, true⟩] := by
  decide

theorem split_sample : split "a  b".toList ' ' = ["a".toList, [], "b".toList] := by decide

theorem Numeral_sample : (⟨Sign.minus, [1, 5, 0]⟩ : Numeral).text = "-150".toList
    ∧ (⟨Sign.minus, [1, 5, 0]⟩ : Numeral).value = -150 := by decide

theorem judgeNote_sample_hit :
    judgeNote (fun k => decide (k = Input.KeyA)) 1000 ⟨1000, 0, true⟩
    = Except.ok (⟨1000, 0, false⟩, some ⟨⟨250, 500⟩, 2⟩) := by decide

theorem judgeNote_sample_miss :
    judgeNote (fun _ => false) 1750 ⟨1500, 2, true⟩
    = Except.ok (⟨1500, 2, false⟩, none) := by decide

/-! ## Properties of the judgment scan -/

theorem wrapInt32_eq_self {x : Int} (h : InInt32 x) : wrapInt32 x = x := by
  unfold InInt32 at h
  unfold wrapInt32
  omega

theorem Abs_eq_abs {x : Int} (h : |x| < 2147483648) : Abs x = |x| := by
  rw [abs_lt] at h
  unfold Abs
  split_ifs with hx
  · rw [wrapInt32_eq_self (by unfold InInt32; omega), abs_of_neg hx]
  · rw [wrapInt32_eq_self (by unfold InInt32; omega), abs_of_nonneg (by omega)]

theorem keysAt_eq_some_iff (key : Int) :
    (∃ k, keysAt key = some k) ↔ (0 ≤ key ∧ key < 4) := by
  constructor
  · rintro ⟨k, hk⟩
    unfold keysAt at hk
    split_ifs at hk with h0
    refine ⟨h0, ?_⟩
    by_contra hge
    have h4 : 4 ≤ key.toNat := by omega
    have : Keys[key.toNat]? = none := by
      apply List.getElem?_eq_none
      simpa [Keys] using h4
    rw [this] at hk
    cases hk
  · rintro ⟨h0, h4⟩
    have hcases : key = 0 ∨ key = 1 ∨ key = 2 ∨ key = 3 := by omega
    rcases hcases with h | h | h | h <;> subst h <;> simp [keysAt, Keys]

/-- An inactive note is skipped by the loop body. -/
theorem judgeNote_inactive (down : Input → Bool) (time : Int) (note : Note)
    (h : note.active = false) : judgeNote down time note = Except.ok (note, none) := by
  simp [judgeNote, h]

/-- What the loop body does to an active note whose time difference and key
index are evaluated without overflow or bounds error. -/
theorem judgeNote_active (down : Input → Bool) (time : Int) (note : Note) (k : Input)
    (hact : note.active = true) (hfit : |time - note.time| < 2147483648)
    (hk : keysAt note.key = some k) :
    judgeNote down time note =
      if |time - note.time| < 250 ∧ down k = true then
        Except.ok ({ note with active := false },
          some { m_start := { x := (GetNotePos note time).x, y := 500 }
                 m_score := if |time - note.time| < 80 then 2 else 1 })
      else if 250 ≤ time - note.time then
        Except.ok ({ note with active := false }, none)
      else Except.ok (note, none) := by
  have hw : wrapInt32 (time - note.time) = time - note.time :=
    wrapInt32_eq_self (by rw [abs_lt] at hfit; unfold InInt32; omega)
  have ha : Abs (time - note.time) = |time - note.time| := Abs_eq_abs hfit
  unfold judgeNote
  simp only [hact, hw, ha, hk]
  by_cases hwin : |time - note.time| < 250
  · by_cases hd : down k = true
    · simp [hwin, hd, GetNotePos]
    · have hlt : ¬ 250 ≤ time - note.time := by
        rw [abs_lt] at hwin; omega
      simp [hwin, hd, hact, hlt]
  · by_cases hlate : 250 ≤ time - note.time
    · simp [hwin, hact, hlate]
    · simp [hwin, hact, hlate]


/-- The scan succeeds exactly when the loop body succeeds on every note, and
its outcomes are the outcomes of the loop body, note by note. -/
theorem judgmentScan_eq_ok_iff (down : Input → Bool) (time : Int) (notes : List Note)
    (outs : List (Note × Option NoteEffect)) :
    judgmentScan down time notes = Except.ok outs ↔
      List.Forall₂ (fun n o => judgeNote down time n = Except.ok o) notes outs := by
  induction notes generalizing outs with
  | nil =>
    cases outs <;> simp [judgmentScan]
  | cons n rest ih =>
    rw [judgmentScan, List.forall₂_cons_left_iff]
    cases hj : judgeNote down time n with
    | error e => simp
    | ok o =>
      cases hs : judgmentScan down time rest with
      | error e =>
        have hno : ∀ u, ¬ List.Forall₂ (fun n o => judgeNote down time n = Except.ok o) rest u := by
          intro u hu
          rw [← ih, hs] at hu
          cases hu
        simp [hno]
      | ok os =>
        have hiff : ∀ u, List.Forall₂ (fun n o => judgeNote down time n = Except.ok o) rest u
            ↔ os = u := by
          intro u
          rw [← ih, hs]
          simp
        simp only [Except.ok.injEq, hiff]
        constructor
        · intro h
          exact ⟨o, os, rfl, rfl, h.symm⟩
        · rintro ⟨b, u, hb, hu, rfl⟩
          rw [hb, hu]

/-- The scan succeeds when the loop body succeeds on every note. -/
theorem judgmentScan_total (down : Input → Bool) (time : Int) (notes : List Note)
    (h : ∀ n ∈ notes, ∃ o, judgeNote down time n = Except.ok o) :
    ∃ outs, judgmentScan down time notes = Except.ok outs := by
  induction notes with
  | nil => exact ⟨[], rfl⟩
  | cons n rest ih =>
    obtain ⟨o, ho⟩ := h n (List.mem_cons_self _ _)
    obtain ⟨os, hos⟩ := ih (fun m hm => h m (List.mem_cons_of_mem _ hm))
    exact ⟨o :: os, by simp [judgmentScan, ho, hos]⟩

/-- Outcome `i` of a successful scan is the outcome of the loop body on note `i`. -/
theorem judgmentScan_getElem? (down : Input → Bool) (time : Int) (notes : List Note)
    (outs : List (Note × Option NoteEffect))
    (h : judgmentScan down time notes = Except.ok outs) (i : Nat) (n : Note)
    (hn : notes[i]? = some n) :
    ∃ o, outs[i]? = some o ∧ judgeNote down time n = Except.ok o := by
  rw [judgmentScan_eq_ok_iff] at h
  induction h generalizing i with
  | nil => simp at hn
  | cons h1 _ ih =>
    cases i with
    | zero =>
      simp only [List.getElem?_cons_zero, Option.some.injEq] at hn
      subst hn
      exact ⟨_, by simp, h1⟩
    | succ j =>
      simp only [List.getElem?_cons_succ] at hn
      obtain ⟨o, ho, hj⟩ := ih j hn
      exact ⟨o, by simpa using ho, hj⟩

/-- The loop body never fails on a note whose key index is one of the four
lanes. -/
theorem judgeNote_total (down : Input → Bool) (time : Int) (note : Note)
    (hkey : 0 ≤ note.key ∧ note.key < 4) :
    ∃ o, judgeNote down time note = Except.ok o := by
  obtain ⟨k, hk⟩ := (keysAt_eq_some_iff note.key).2 hkey
  unfold judgeNote
  simp only [hk]
  split_ifs <;> simp <;> split_ifs <;> simp


theorem judgmentScan_sample :
    judgmentScan (fun k => decide (k = Input.KeyA)) 1000
    [⟨1000, 0, true⟩, ⟨1100, 0, true⟩, ⟨1000, 1, true⟩]
    = Except.ok [(⟨1000, 0, false⟩, some ⟨⟨250, 500⟩, 2⟩),
                 (⟨1100, 0, false⟩, some ⟨⟨250, 500⟩, 1⟩),
                 (⟨1000, 1, true⟩, none)] := by decide


/-- C2 as stated fails when the `int32` difference `time - note.time` wraps.
An active note of time -2147483648 judged at time 1000 with no key down is
2147484648 ms late, yet the difference wraps to -2147482648 and the note
stays active. -/
theorem judgeNote_wrapped_miss_counterexample :
    (250 : Int) ≤ 1000 - (-2147483648) ∧
    judgeNote (fun _ => false) 1000 ⟨-2147483648, 0, true⟩
      = Except.ok (⟨-2147483648, 0, true⟩, none) ∧
    judgmentScan (fun _ => false) 1000 [⟨-2147483648, 0, true⟩]
      = Except.ok [(⟨-2147483648, 0, true⟩, none)] := by
  decide

/-- C2, amended: a note that is active at the start of the loop body and at
least 250 ms late, with a difference that fits in `int32`
(`250 ≤ time - note.time ≤ 2147483647`), is left consumed and no effect is
added for it, whatever keys went down; the same holds for that note inside
any scan. -/
theorem judgeNote_miss (down : Input → Bool) (time : Int) (note : Note)
    (hact : note.active = true) (hlate : 250 ≤ time - note.time)
    (hfit : time - note.time ≤ 2147483647) :
    judgeNote down time note = Except.ok ({ note with active := false }, none) ∧
    ∀ (notes : List Note) (outs : List (Note × Option NoteEffect)) (i : Nat),
      judgmentScan down time notes = Except.ok outs → notes[i]? = some note →
      outs[i]? = some ({ note with active := false }, none) := by
  have hw : wrapInt32 (time - note.time) = time - note.time :=
    wrapInt32_eq_self (by unfold InInt32; omega)
  have habs : |time - note.time| = time - note.time := abs_of_nonneg (by omega)
  have ha : Abs (time - note.time) = time - note.time := by
    rw [Abs_eq_abs (by rw [habs]; omega), habs]
  have hnot : ¬ (time - note.time < 250) := by omega
  have hbody : judgeNote down time note = Except.ok ({ note with active := false }, none) := by
    unfold judgeNote
    rw [if_neg (by rw [hact]; decide)]
    simp only [hw, ha]
    rw [if_neg hnot]
    simp [hact, hlate]
  refine ⟨hbody, ?_⟩
  intro notes outs i hscan hn
  obtain ⟨o, ho, hj⟩ := judgmentScan_getElem? down time notes outs hscan i note hn
  rw [hbody] at hj
  injection hj with hj
  rw [ho, hj]

/-- Witness for C2: the note at time 1500 judged at time 1750 with no key down. -/
theorem judgeNote_miss_witness :
    judgeNote (fun _ => false) 1750 ⟨1500, 2, true⟩ = Except.ok (⟨1500, 2, false⟩, none) ∧
    ∀ (notes : List Note) (outs : List (Note × Option NoteEffect)) (i : Nat),
      judgmentScan (fun _ => false) 1750 notes = Except.ok outs →
      notes[i]? = some ⟨1500, 2, true⟩ →
      outs[i]? = some (⟨1500, 2, false⟩, none) :=
  judgeNote_miss (fun _ => false) 1750 ⟨1500, 2, true⟩ rfl (by decide) (by decide)

/-- An effect is only added for an active note whose key index is in bounds. -/
theorem judgeNote_effect_inv (down : Input → Bool) (time : Int) (note note' : Note)
    (e : NoteEffect) (h : judgeNote down time note = Except.ok (note', some e)) :
    note.active = true ∧ ∃ k, keysAt note.key = some k ∧ down k = true := by
  unfold judgeNote at h
  cases hact : note.active with
  | false => simp [hact] at h
  | true =>
    refine ⟨rfl, ?_⟩
    cases hk : keysAt note.key with
    | none =>
      simp only [hact, hk] at h
      split_ifs at h <;> simp at h
      all_goals (split_ifs at h <;> simp at h)
    | some k =>
      refine ⟨k, rfl, ?_⟩
      by_contra hd
      simp only [hact, hk, hd] at h
      split_ifs at h <;> simp at h
      all_goals (split_ifs at h <;> simp at h)

/-- Score and text of an effect added by the loop body, by offset. -/
theorem judgeNote_score (down : Input → Bool) (time : Int) (note note' : Note)
    (e : NoteEffect) (h : judgeNote down time note = Except.ok (note', some e)) :
    (|time - note.time| < 80 →
      e.m_score = 2 ∧ e.updateText = some ScoreText.Excellent) ∧
    (80 ≤ |time - note.time| → |time - note.time| < 250 →
      e.m_score = 1 ∧ e.updateText = some ScoreText.Good) := by
  obtain ⟨hact, k, hk, hd⟩ := judgeNote_effect_inv down time note note' e h
  have key : ∀ (hwin : |time - note.time| < 250),
      e.m_score = if |time - note.time| < 80 then 2 else 1 := by
    intro hwin
    rw [judgeNote_active down time note k hact (by omega) hk, if_pos ⟨hwin, hd⟩] at h
    injection h with h
    injection h with _ h
    injection h with h
    rw [← h]
  constructor
  · intro h80
    have := key (by omega)
    rw [if_pos h80] at this
    simp [NoteEffect.updateText, this]
  · intro h80 h250
    have := key h250
    rw [if_neg (by omega)] at this
    simp [NoteEffect.updateText, this]

/-- C3: for every effect a judgment scan adds for a note, with
`offset = time - note.time`: the score is 2 and the text drawn is "Excellent"
when `|offset| < 80`; the score is 1 and the text drawn is "Good" when
`80 ≤ |offset| < 250`.  In particular offsets 80 and -80 give "Good" and
offset 0 gives "Excellent". -/
theorem judgmentScan_tier (down : Input → Bool) (time : Int) (notes : List Note)
    (outs : List (Note × Option NoteEffect)) (i : Nat) (note note' : Note) (e : NoteEffect)
    (hscan : judgmentScan down time notes = Except.ok outs)
    (hn : notes[i]? = some note) (ho : outs[i]? = some (note', some e)) :
    (|time - note.time| < 80 →
      e.m_score = 2 ∧ e.updateText = some ScoreText.Excellent) ∧
    (80 ≤ |time - note.time| → |time - note.time| < 250 →
      e.m_score = 1 ∧ e.updateText = some ScoreText.Good) ∧
    (time - note.time = 80 ∨ time - note.time = -80 →
      e.m_score = 1 ∧ e.updateText = some ScoreText.Good) ∧
    (time - note.time = 0 →
      e.m_score = 2 ∧ e.updateText = some ScoreText.Excellent) := by
  obtain ⟨o, ho', hj⟩ := judgmentScan_getElem? down time notes outs hscan i note hn
  rw [ho] at ho'
  injection ho' with ho'
  subst ho'
  obtain ⟨hex, hgood⟩ := judgeNote_score down time note note' e hj
  refine ⟨hex, hgood, ?_, ?_⟩
  · rintro (h80 | h80)
    · exact hgood (by rw [h80]; decide) (by rw [h80]; decide)
    · exact hgood (by rw [h80]; decide) (by rw [h80]; decide)
  · intro h0
    exact hex (by rw [h0]; decide)

/-- Witness for C3: key A goes down at time 1080, 80 ms after a lane-0 note of
time 1000 and exactly at a lane-0 note of time 1080; the effect added for the
first note is the one of score 1. -/
theorem judgmentScan_tier_witness :
    judgmentScan (fun k => decide (k = Input.KeyA)) 1080 [⟨1000, 0, true⟩, ⟨1080, 0, true⟩]
      = Except.ok [(⟨1000, 0, false⟩, some ⟨⟨250, 500⟩, 1⟩),
                   (⟨1080, 0, false⟩, some ⟨⟨250, 500⟩, 2⟩)] ∧
    (⟨⟨250, 500⟩, 1⟩ : NoteEffect).m_score = 1 ∧
    (⟨⟨250, 500⟩, 1⟩ : NoteEffect).updateText = some ScoreText.Good :=
  ⟨by decide,
   (judgmentScan_tier (fun k => decide (k = Input.KeyA)) 1080
      [⟨1000, 0, true⟩, ⟨1080, 0, true⟩]
      [(⟨1000, 0, false⟩, some ⟨⟨250, 500⟩, 1⟩), (⟨1080, 0, false⟩, some ⟨⟨250, 500⟩, 2⟩)]
      0 ⟨1000, 0, true⟩ ⟨1000, 0, false⟩ ⟨⟨250, 500⟩, 1⟩
      (by decide) (by decide) (by decide)).2.2.1 (Or.inl (by decide))⟩

/-- The loop body only ever writes the `active` flag, and only clears it. -/
theorem judgeNote_fields (down : Input → Bool) (time : Int) (note : Note)
    (o : Note × Option NoteEffect) (h : judgeNote down time note = Except.ok o) :
    o.1.time = note.time ∧ o.1.key = note.key ∧
      (o.1.active = true → note.active = true ∧ o.2 = none) := by
  by_cases hact : note.active = true
  · by_cases hwin : Abs (wrapInt32 (time - note.time)) < 250
    · cases hk : keysAt note.key with
      | none => simp [judgeNote, hact, hwin, hk] at h
      | some k =>
        by_cases hd : down k = true
        · simp [judgeNote, hact, hwin, hk, hd] at h
          rw [← h]
          simp
        · by_cases hlate : 250 ≤ wrapInt32 (time - note.time)
          · simp [judgeNote, hact, hwin, hk, hd, hlate] at h
            rw [← h]
            simp
          · simp [judgeNote, hact, hwin, hk, hd, hlate] at h
            rw [← h]
            simp [hact]
    · by_cases hlate : 250 ≤ wrapInt32 (time - note.time)
      · simp [judgeNote, hact, hwin, hlate] at h
        rw [← h]
        simp
      · simp [judgeNote, hact, hwin, hlate] at h
        rw [← h]
        simp [hact]
  · have hina : note.active = false := by simpa using hact
    rw [judgeNote_inactive down time note hina] at h
    injection h with h
    rw [← h]
    simp [hina]

/-- C9: a judgment scan changes nothing but the `active` flag: the note array
after the scan has the same length, and the note at each index has the same
time and the same key as before.  The scan completes whenever every key
index is one of the four lanes. -/
theorem judgmentScan_frame (down : Input → Bool) (time : Int) (notes : List Note) :
    (∀ outs, judgmentScan down time notes = Except.ok outs →
      (notesAfter outs).length = notes.length ∧
      ∀ (i : Nat) (n n' : Note), notes[i]? = some n → (notesAfter outs)[i]? = some n' →
        n'.time = n.time ∧ n'.key = n.key) ∧
    ((∀ n ∈ notes, 0 ≤ n.key ∧ n.key < 4) →
      ∃ outs, judgmentScan down time notes = Except.ok outs) := by
  refine ⟨?_, fun hkey => judgmentScan_total down time notes
    (fun n hn => judgeNote_total down time n (hkey n hn))⟩
  intro outs houts
  constructor
  · have := ((judgmentScan_eq_ok_iff down time notes outs).1 houts).length_eq
    simp [notesAfter, this]
  · intro i n n' hn hn'
    obtain ⟨o, ho, hj⟩ := judgmentScan_getElem? down time notes outs houts i n hn
    have hfst : n' = o.1 := by
      simp only [notesAfter, List.getElem?_map, ho, Option.map_some'] at hn'
      injection hn' with hn'
      exact hn'.symm
    obtain ⟨h1, h2, _⟩ := judgeNote_fields down time n o hj
    rw [hfst]
    exact ⟨h1, h2⟩

/-- Witness for C9: a three-note chart scanned at time 1000 with key A down. -/
theorem judgmentScan_frame_witness :
    ∃ outs, judgmentScan (fun k => decide (k = Input.KeyA)) 1000
      [⟨1000, 0, true⟩, ⟨700, 3, true⟩, ⟨5000, 1, true⟩] = Except.ok outs :=
  (judgmentScan_frame (fun k => decide (k = Input.KeyA)) 1000
    [⟨1000, 0, true⟩, ⟨700, 3, true⟩, ⟨5000, 1, true⟩]).2 (by decide)

theorem judgmentScan_sample_notes :
    (judgmentScan (fun k => decide (k = Input.KeyA)) 1000
    [⟨1000, 0, true⟩, ⟨700, 3, true⟩, ⟨5000, 1, true⟩]).map notesAfter
    = Except.ok [⟨1000, 0, false⟩, ⟨700, 3, false⟩, ⟨5000, 1, true⟩] := by decide


/-- A consumed note stays as it is, without effect, over any frames. -/
theorem noteSession_inactive (frames : List Frame) (note : Note) (h : note.active = false) :
    noteSession frames note = Except.ok (frames.map fun _ => (note, none)) := by
  induction frames with
  | nil => rfl
  | cons f fs ih =>
    simp [noteSession, judgeNote_inactive f.down f.time note h, ih]

theorem hitCount_map_none (frames : List Frame) (note : Note) :
    hitCount (frames.map fun _ => ((note, none) : Note × Option NoteEffect)) = 0 := by
  induction frames with
  | nil => rfl
  | cons f fs ih =>
    simp [hitCount, effectsAdded]

theorem stateChanges_const (b : Bool) (frames : List Frame) (note : Note)
    (h : note.active = b) :
    stateChanges (b :: (frames.map fun _ => ((note, none) : Note × Option NoteEffect)).map
      (fun o => o.1.active)) = 0 := by
  induction frames with
  | nil => rfl
  | cons f fs ih =>
    simp only [List.map_cons, stateChanges, h, if_true, Nat.zero_add]
    simpa [h] using ih

/-- The session of a note never fails when its key index is one of the four
lanes, and yields one outcome per frame. -/
theorem noteSession_total (frames : List Frame) (note : Note)
    (hkey : 0 ≤ note.key ∧ note.key < 4) :
    ∃ outs, noteSession frames note = Except.ok outs ∧ outs.length = frames.length := by
  induction frames generalizing note with
  | nil => exact ⟨[], rfl, rfl⟩
  | cons f fs ih =>
    obtain ⟨o, ho⟩ := judgeNote_total f.down f.time note hkey
    obtain ⟨_, hkeyeq, _⟩ := judgeNote_fields f.down f.time note o ho
    obtain ⟨os, hos, hlen⟩ := ih o.1 (by rw [hkeyeq]; exact hkey)
    exact ⟨o :: os, by simp [noteSession, ho, hos], by simp [hlen]⟩

/-- Over a session a note gets at most one effect and changes state at most
once. -/
theorem noteSession_atMostOnce (frames : List Frame) (note : Note)
    (outs : List (Note × Option NoteEffect))
    (h : noteSession frames note = Except.ok outs) :
    hitCount outs ≤ 1 ∧ stateChanges (note.active :: outs.map (fun o => o.1.active)) ≤ 1 := by
  induction frames generalizing note outs with
  | nil =>
    simp only [noteSession, Except.ok.injEq] at h
    subst h
    simp [hitCount, effectsAdded, stateChanges]
  | cons f fs ih =>
    rw [noteSession] at h
    cases hj : judgeNote f.down f.time note with
    | error e => simp [hj] at h
    | ok o =>
      cases hs : noteSession fs o.1 with
      | error e => simp [hj, hs] at h
      | ok os =>
        simp only [hj, hs, Except.ok.injEq] at h
        subst h
        obtain ⟨_, _, hstay⟩ := judgeNote_fields f.down f.time note o hj
        cases hoa : o.1.active with
        | true =>
          obtain ⟨hna, hnone⟩ := hstay hoa
          obtain ⟨ih1, ih2⟩ := ih o.1 os hs
          rw [hoa] at ih2
          constructor
          · simpa [hitCount, effectsAdded, hnone] using ih1
          · simpa [stateChanges, hna, hoa] using ih2
        | false =>
          rw [noteSession_inactive fs o.1 hoa] at hs
          injection hs with hs
          subst hs
          constructor
          · have h0 := hitCount_map_none fs o.1
            simp only [hitCount, effectsAdded] at h0 ⊢
            rw [List.filterMap_cons]
            cases o.2 with
            | none => simp [h0]
            | some e => simp [h0]
          · have h0 := stateChanges_const false fs o.1 hoa
            simp only [List.map_cons, stateChanges, hoa]
            rw [h0]
            split_ifs <;> simp

/-- C4: consumed is terminal.  A consumed note is still consumed, unchanged,
after any finite sequence of frames with arbitrary times and key states, and
no frame adds an effect for it; the same holds for a consumed note inside
any scan of a chart.  Hence over any session a note changes state at most
once and gets at most one effect, and a session of a note of lane 0..3 runs
through all its frames. -/
theorem consumed_terminal :
    (∀ (frames : List Frame) (note : Note), note.active = false →
      noteSession frames note = Except.ok (frames.map fun _ => (note, none))) ∧
    (∀ (down : Input → Bool) (time : Int) (notes : List Note)
      (outs : List (Note × Option NoteEffect)) (i : Nat) (note : Note),
      note.active = false → judgmentScan down time notes = Except.ok outs →
      notes[i]? = some note → outs[i]? = some (note, none)) ∧
    (∀ (frames : List Frame) (note : Note) (outs : List (Note × Option NoteEffect)),
      noteSession frames note = Except.ok outs →
      hitCount outs ≤ 1 ∧ stateChanges (note.active :: outs.map (fun o => o.1.active)) ≤ 1) ∧
    (∀ (frames : List Frame) (note : Note), 0 ≤ note.key ∧ note.key < 4 →
      ∃ outs, noteSession frames note = Except.ok outs ∧ outs.length = frames.length) := by
  refine ⟨noteSession_inactive, ?_, noteSession_atMostOnce, noteSession_total⟩
  intro down time notes outs i note hina hscan hn
  obtain ⟨o, ho, hj⟩ := judgmentScan_getElem? down time notes outs hscan i note hn
  rw [judgeNote_inactive down time note hina] at hj
  injection hj with hj
  rw [ho, hj]

/-- Witness for C4: a consumed note of an out-of-range lane over two frames
with every key down, and an active lane-0 note pressed on both frames. -/
theorem consumed_terminal_witness :
    noteSession [⟨1000, fun _ => true⟩, ⟨1010, fun _ => true⟩] ⟨1000, 9, false⟩
      = Except.ok [(⟨1000, 9, false⟩, none), (⟨1000, 9, false⟩, none)] ∧
    (∃ outs, noteSession [⟨1000, fun _ => true⟩, ⟨1010, fun _ => true⟩] ⟨1000, 0, true⟩
        = Except.ok outs ∧
      outs.length = [(⟨1000, fun _ => true⟩ : Frame), ⟨1010, fun _ => true⟩].length) :=
  ⟨consumed_terminal.1 [⟨1000, fun _ => true⟩, ⟨1010, fun _ => true⟩] ⟨1000, 9, false⟩ rfl,
   consumed_terminal.2.2.2 [⟨1000, fun _ => true⟩, ⟨1010, fun _ => true⟩] ⟨1000, 0, true⟩
     (by decide)⟩

theorem noteSession_sample :
    noteSession [⟨1000, fun _ => true⟩, ⟨1010, fun _ => true⟩] ⟨1000, 0, true⟩
    = Except.ok [(⟨1000, 0, false⟩, some ⟨⟨250, 500⟩, 2⟩), (⟨1000, 0, false⟩, none)] := by
  decide


/-! ## Properties of `GetNotePos` -/

/-- C10: in exact arithmetic (the `int32` sub-expressions `note.key * 100`,
`250 + note.key * 100` and `note.time - time` not overflowing, `double`
values taken as rationals) `GetNotePos` returns `x = 250 + 100 * note.key`
and `y = 500 - (note.time - time) / 4`.  The `x` coordinate is the same for
all notes of a lane at all times; `y` is 500 exactly when
`time = note.time`, is below 500 before `note.time`, above 500 after it, and
strictly increases with `time`. -/
theorem GetNotePos_exact (note : Note) (time : Int)
    (hx : InInt32 (note.key * 100) ∧ InInt32 (250 + note.key * 100))
    (hy : InInt32 (note.time - time)) :
    (GetNotePos note time).x = 250 + 100 * (note.key : ℚ) ∧
    (GetNotePos note time).y = 500 - ((note.time : ℚ) - (time : ℚ)) / 4 ∧
    (∀ (other : Note) (time' : Int), other.key = note.key →
      (GetNotePos other time').x = (GetNotePos note time).x) ∧
    ((GetNotePos note time).y = 500 ↔ time = note.time) ∧
    (time < note.time → (GetNotePos note time).y < 500) ∧
    (note.time < time → 500 < (GetNotePos note time).y) ∧
    (∀ time' : Int, InInt32 (note.time - time') → time < time' →
      (GetNotePos note time).y < (GetNotePos note time').y) := by
  have hxv : (GetNotePos note time).x = 250 + 100 * (note.key : ℚ) := by
    simp only [GetNotePos]
    rw [wrapInt32_eq_self hx.1, wrapInt32_eq_self hx.2]
    push_cast
    ring
  have hyv : ∀ t : Int, InInt32 (note.time - t) →
      (GetNotePos note t).y = 500 - ((note.time : ℚ) - (t : ℚ)) / 4 := by
    intro t ht
    simp only [GetNotePos]
    rw [wrapInt32_eq_self ht]
    push_cast
    ring
  refine ⟨hxv, hyv time hy, ?_, ?_, ?_, ?_, ?_⟩
  · intro other time' hkey
    simp only [GetNotePos, hkey]
  · rw [hyv time hy]
    constructor
    · intro h
      have h2 : (note.time : ℚ) = (time : ℚ) := by linarith
      exact_mod_cast h2.symm
    · intro h
      rw [h]
      ring
  · intro hlt
    rw [hyv time hy]
    have : (time : ℚ) < (note.time : ℚ) := by exact_mod_cast hlt
    linarith
  · intro hlt
    rw [hyv time hy]
    have : (note.time : ℚ) < (time : ℚ) := by exact_mod_cast hlt
    linarith
  · intro time' hy' hlt
    rw [hyv time hy, hyv time' hy']
    have : (time : ℚ) < (time' : ℚ) := by exact_mod_cast hlt
    linarith

/-- Witness for C10: the lane-2 note of time 1500 seen at time 1000. -/
theorem GetNotePos_exact_witness :
    (GetNotePos ⟨1500, 2, true⟩ 1000).x = 250 + 100 * ((2 : Int) : ℚ) ∧
    (GetNotePos ⟨1500, 2, true⟩ 1000).y = 500 - (((1500 : Int) : ℚ) - ((1000 : Int) : ℚ)) / 4 :=
  ⟨(GetNotePos_exact ⟨1500, 2, true⟩ 1000 (by decide) (by decide)).1,
   (GetNotePos_exact ⟨1500, 2, true⟩ 1000 (by decide) (by decide)).2.1⟩

theorem GetNotePos_sample : GetNotePos ⟨1500, 2, true⟩ 1000 = ⟨450, 375⟩ := by
  norm_num [GetNotePos, wrapInt32]


/-! ## Properties of the chart loader -/

theorem splitLoop_of_not_mem (ch : Char) (b cur : List Char) (hb : ch ∉ b) :
    splitLoop ch b cur = [cur ++ b] := by
  induction b generalizing cur with
  | nil => simp [splitLoop]
  | cons c cs ih =>
    have hc : c ≠ ch := fun h => hb (by simp [h])
    have hcs : ch ∉ cs := fun h => hb (List.mem_cons_of_mem _ h)
    simp [splitLoop, hc, ih _ hcs]

theorem splitLoop_append (ch : Char) (a b cur : List Char) (ha : ch ∉ a) :
    splitLoop ch (a ++ ch :: b) cur = (cur ++ a) :: splitLoop ch b [] := by
  induction a generalizing cur with
  | nil => simp [splitLoop]
  | cons c cs ih =>
    have hc : c ≠ ch := fun h => ha (by simp [h])
    have hcs : ch ∉ cs := fun h => ha (List.mem_cons_of_mem _ h)
    simp [splitLoop, hc, ih _ hcs]

/-- Two delimiter-free fields separated by one delimiter split into exactly
those two fields. -/
theorem split_two (ch : Char) (a b : List Char) (ha : ch ∉ a) (hb : ch ∉ b) :
    split (a ++ ch :: b) ch = [a, b] := by
  unfold split
  rw [if_neg (by simp)]
  rw [splitLoop_append ch a b [] ha, splitLoop_of_not_mem ch b [] hb]
  simp

theorem digitChar_facts : ∀ d : Fin 10,
    digitChar d ∈ digitChars ∧ digitChars.indexOf (digitChar d) = d.val ∧
    digitChar d ≠ '-' ∧ digitChar d ≠ '+' ∧ digitChar d ≠ ' ' := by
  decide

theorem exists_digit_of_mem (c : Char) (h : c ∈ digitChars) :
    ∃ d : Fin 10, digitChar d = c := by
  simp only [digitChars, List.mem_cons, List.mem_singleton, List.not_mem_nil, or_false] at h
  rcases h with h | h | h | h | h | h | h | h | h | h
  · exact ⟨0, by rw [h]; decide⟩
  · exact ⟨1, by rw [h]; decide⟩
  · exact ⟨2, by rw [h]; decide⟩
  · exact ⟨3, by rw [h]; decide⟩
  · exact ⟨4, by rw [h]; decide⟩
  · exact ⟨5, by rw [h]; decide⟩
  · exact ⟨6, by rw [h]; decide⟩
  · exact ⟨7, by rw [h]; decide⟩
  · exact ⟨8, by rw [h]; decide⟩
  · exact ⟨9, by rw [h]; decide⟩

theorem exists_digits_of_forall_mem (ds : List Char) (h : ∀ c ∈ ds, c ∈ digitChars) :
    ∃ fs : List (Fin 10), fs.map digitChar = ds := by
  induction ds with
  | nil => exact ⟨[], rfl⟩
  | cons c cs ih =>
    obtain ⟨d, hd⟩ := exists_digit_of_mem c (h c (List.mem_cons_self _ _))
    obtain ⟨fs, hfs⟩ := ih (fun x hx => h x (List.mem_cons_of_mem _ hx))
    exact ⟨d :: fs, by simp [hd, hfs]⟩

/-- The value the parser computes for a digit string is its positional
value. -/
theorem digitsValue_map (fs : List (Fin 10)) :
    digitsValue (fs.map digitChar) = Nat.ofDigits 10 (fs.reverse.map Fin.val) := by
  induction fs using List.reverseRecOn with
  | nil => simp [digitsValue]
  | append_singleton xs d ih =>
    unfold digitsValue at ih ⊢
    rw [List.map_append, List.foldl_append, ih]
    simp only [List.map_cons, List.map_nil, List.foldl_cons, List.foldl_nil,
      List.reverse_append, List.reverse_cons, List.reverse_nil, List.nil_append,
      List.singleton_append, Nat.ofDigits_cons, (digitChar_facts d).2.1]
    ring

theorem Numeral.text_no_space (n : Numeral) : ' ' ∉ n.text := by
  unfold Numeral.text
  intro h
  rw [List.mem_append] at h
  rcases h with h | h
  · cases hs : n.sign <;> simp [hs, Sign.text] at h
  · rw [List.mem_map] at h
    obtain ⟨d, _, hd⟩ := h
    exact (digitChar_facts d).2.2.2.2 hd

/-- The parser reads the text of a written integer back as its value,
provided the value fits in `int32`. -/
theorem Parse_text (n : Numeral) (hne : n.digits ≠ []) (hfit : InInt32 n.value) :
    Parse n.text = Except.ok n.value := by
  obtain ⟨sign, digits⟩ := n
  simp only at hne
  have hall : ∀ c ∈ digits.map digitChar, c ∈ digitChars := by
    intro c hc
    rw [List.mem_map] at hc
    obtain ⟨d, _, rfl⟩ := hc
    exact (digitChar_facts d).1
  cases sign with
  | bare =>
    have hv : Numeral.value ⟨Sign.bare, digits⟩
        = (digitsValue (digits.map digitChar) : Int) := by
      simp only [Numeral.value, Numeral.magnitude, digitsValue_map]
    rw [hv] at hfit ⊢
    obtain ⟨d, ds, rfl⟩ := List.exists_cons_of_ne_nil hne
    have h1 := (digitChar_facts d).2.2.1
    have h2 := (digitChar_facts d).2.2.2.1
    simp only [Numeral.text, Sign.text, List.nil_append, List.map_cons] at hall hfit ⊢
    simp [Parse, h1, h2, hfit]
    exact ⟨(digitChar_facts d).1, fun x _ => (digitChar_facts x).1⟩
  | plus =>
    have hv : Numeral.value ⟨Sign.plus, digits⟩
        = (digitsValue (digits.map digitChar) : Int) := by
      simp only [Numeral.value, Numeral.magnitude, digitsValue_map]
    rw [hv] at hfit ⊢
    simp only [Numeral.text, Sign.text, List.singleton_append]
    simp [Parse, hfit, hne]
    exact fun x _ => (digitChar_facts x).1
  | minus =>
    have hv : Numeral.value ⟨Sign.minus, digits⟩
        = -(digitsValue (digits.map digitChar) : Int) := by
      simp only [Numeral.value, Numeral.magnitude, digitsValue_map]
    rw [hv] at hfit ⊢
    simp only [Numeral.text, Sign.text, List.singleton_append]
    simp [Parse, hfit, hne]
    exact fun x _ => (digitChar_facts x).1


theorem readLoop_wellFormed (chart : List ChartLine) (acc : List Note)
    (h : ∀ l ∈ chart, l.WellFormed) :
    readLoop (chart.map ChartLine.text) acc = Except.ok (acc ++ chart.filterMap ChartLine.note) := by
  induction chart generalizing acc with
  | nil => simp [readLoop]
  | cons l rest ih =>
    have hrest : ∀ l ∈ rest, l.WellFormed := fun x hx => h x (List.mem_cons_of_mem _ hx)
    have hl := h l (List.mem_cons_self _ _)
    cases l with
    | none =>
      simp [readLoop, ChartLine.text, ChartLine.note, ih _ hrest]
    | some tk =>
      obtain ⟨t, k⟩ := tk
      obtain ⟨ht, hk, hft, hfk⟩ := hl
      have hne : t.text ++ ' ' :: k.text ≠ [] := by simp
      simp only [List.map_cons, ChartLine.text, readLoop, if_neg hne,
        split_two ' ' t.text k.text t.text_no_space k.text_no_space,
        Parse_text t ht hft, Parse_text k hk hfk, ih _ hrest]
      simp [ChartLine.note]

/-- C5 as stated fails on an integer that the `int32` fields of a note cannot
hold: the line "2147483648 0" is made of the two base-10 integers 2147483648
and 0 separated by one space, and `LoadNotes` fails on it instead of
returning the note of time 2147483648 and key 0. -/
theorem LoadNotes_int32_range_counterexample :
    ChartLine.text (some (⟨Sign.bare, [2, 1, 4, 7, 4, 8, 3, 6, 4, 8]⟩, ⟨Sign.bare, [0]⟩))
      = "2147483648 0".toList ∧
    (⟨Sign.bare, [2, 1, 4, 7, 4, 8, 3, 6, 4, 8]⟩ : Numeral).value = 2147483648 ∧
    (⟨Sign.bare, [0]⟩ : Numeral).value = 0 ∧
    LoadNotes (some ["2147483648 0".toList]) = Except.error LoadError.parseError ∧
    LoadNotes (some ["2147483648 0".toList]) ≠ Except.ok [⟨2147483648, 0, true⟩] := by
  decide

/-- C5, amended: for every chart made only of well-formed lines (blank lines,
and lines of two base-10 signed integers whose values fit in `int32`,
-2147483648..2147483647, separated by exactly one space), `LoadNotes`
succeeds; the notes it returns are, in file order, the pairs of integers of
the non-blank lines, their number is the number of non-blank lines, and every
note is active. -/
theorem LoadNotes_wellFormed (chart : List ChartLine) (h : ∀ l ∈ chart, l.WellFormed) :
    LoadNotes (some (chart.map ChartLine.text))
      = Except.ok (chart.filterMap ChartLine.note) ∧
    (chart.filterMap ChartLine.note).length
      = ((chart.map ChartLine.text).filter (fun l => decide (l ≠ []))).length ∧
    ∀ n ∈ chart.filterMap ChartLine.note, n.active = true := by
  refine ⟨?_, ?_, ?_⟩
  · simpa [LoadNotes] using readLoop_wellFormed chart [] h
  · clear h
    induction chart with
    | nil => rfl
    | cons l rest ih =>
      cases l with
      | none => simpa [ChartLine.text, ChartLine.note] using ih
      | some tk =>
        obtain ⟨t, k⟩ := tk
        simpa [ChartLine.text, ChartLine.note] using ih
  · intro n hn
    rw [List.mem_filterMap] at hn
    obtain ⟨l, _, hl⟩ := hn
    cases l with
    | none => simp [ChartLine.note] at hl
    | some tk =>
      obtain ⟨t, k⟩ := tk
      simp only [ChartLine.note, Option.some.injEq] at hl
      rw [← hl]

/-- Witness for C5: the chart "1000 0", "", "1500 2". -/
theorem LoadNotes_wellFormed_witness :
    LoadNotes (some ["1000 0".toList, "".toList, "1500 2".toList])
      = Except.ok [⟨1000, 0, true⟩, ⟨1500, 2, true⟩] :=
  (LoadNotes_wellFormed
    [some (⟨Sign.bare, [1, 0, 0, 0]⟩, ⟨Sign.bare, [0]⟩), none,
     some (⟨Sign.bare, [1, 5, 0, 0]⟩, ⟨Sign.bare, [2]⟩)]
    (by decide)).1

theorem Parse_ok_isIntLiteral (tok : List Char) (v : Int) (h : Parse tok = Except.ok v) :
    IsIntLiteral tok := by
  have key : ∀ (sign : Sign) (ds : List Char), ds ≠ [] → (∀ c ∈ ds, c ∈ digitChars) →
      IsIntLiteral (sign.text ++ ds) := by
    intro sign ds hne hall
    obtain ⟨fs, hfs⟩ := exists_digits_of_forall_mem ds hall
    refine ⟨⟨sign, fs⟩, ?_, ?_⟩
    · intro hnil
      simp only at hnil
      rw [hnil] at hfs
      exact hne hfs.symm
    · simp [Numeral.text, hfs]
  cases tok with
  | nil => simp [Parse] at h
  | cons c rest =>
    by_cases hm : c = '-'
    · subst hm
      by_cases hbad : rest = [] ∨ ∃ x ∈ rest, x ∉ digitChars
      · simp [Parse, hbad] at h
      · push_neg at hbad
        exact key Sign.minus rest hbad.1 hbad.2
    · by_cases hp : c = '+'
      · subst hp
        by_cases hbad : rest = [] ∨ ∃ x ∈ rest, x ∉ digitChars
        · simp [Parse, hbad] at h
        · push_neg at hbad
          exact key Sign.plus rest hbad.1 hbad.2
      · by_cases hbad : ¬ (∀ x ∈ c :: rest, x ∈ digitChars)
        · simp only [Parse, hm, hp, if_false] at h
          rw [if_pos (Or.inr hbad)] at h
          cases h
        · rw [not_not] at hbad
          exact key Sign.bare (c :: rest) (by simp) hbad


theorem readLoop_badLine (lines : List (List Char)) (acc : List Note)
    (h : ∃ l ∈ lines, BadLine l) :
    ∃ e, readLoop lines acc = Except.error e ∧ e.isMalformedLine = true := by
  induction lines generalizing acc with
  | nil =>
    obtain ⟨l, hl, _⟩ := h
    cases hl
  | cons line rest ih =>
    by_cases hempty : line = []
    · have hrest : ∃ l ∈ rest, BadLine l := by
        obtain ⟨l, hl, hbad⟩ := h
        rcases List.mem_cons.1 hl with rfl | hl
        · exact absurd hempty hbad.1
        · exact ⟨l, hl, hbad⟩
      rw [readLoop, if_pos hempty]
      exact ih acc hrest
    · rw [readLoop, if_neg hempty]
      match hs : split line ' ' with
      | [] => exact ⟨LoadError.invalidChart, rfl, rfl⟩
      | [_] => exact ⟨LoadError.invalidChart, rfl, rfl⟩
      | _ :: _ :: _ :: _ => exact ⟨LoadError.invalidChart, rfl, rfl⟩
      | [p0, p1] =>
        simp only []
        cases h0 : Parse p0 with
        | error e0 => exact ⟨LoadError.parseError, rfl, rfl⟩
        | ok t =>
          cases h1 : Parse p1 with
          | error e1 => exact ⟨LoadError.parseError, rfl, rfl⟩
          | ok k =>
            simp only []
            apply ih
            obtain ⟨l, hl, hbad⟩ := h
            rcases List.mem_cons.1 hl with rfl | hl
            · exfalso
              obtain ⟨_, hb⟩ := hbad
              rw [hs] at hb
              rcases hb with hb | ⟨tok, htok, hnot⟩
              · exact hb rfl
              · simp only [List.mem_cons, List.mem_singleton, List.not_mem_nil, or_false] at htok
                rcases htok with rfl | rfl
                · exact hnot (Parse_ok_isIntLiteral _ t h0)
                · exact hnot (Parse_ok_isIntLiteral _ k h1)
            · exact ⟨l, hl, hbad⟩

/-- C6: when some non-empty line of the chart does not split on the single
space into exactly two fields (one field, or more than two), or has a field
that is not a base-10 signed integer, `LoadNotes` fails with a malformed-line
error (the invalid-chart error of the loop, or the parse failure that counts
as one): the result is an error and carries no notes, not even those of the
valid lines before the bad one. -/
theorem LoadNotes_malformed (lines : List (List Char)) (h : ∃ l ∈ lines, BadLine l) :
    ∃ e, LoadNotes (some lines) = Except.error e ∧ e.isMalformedLine = true ∧
      ∀ notes, LoadNotes (some lines) ≠ Except.ok notes := by
  obtain ⟨e, he, hm⟩ := readLoop_badLine lines [] h
  have he' : LoadNotes (some lines) = Except.error e := he
  refine ⟨e, he', hm, ?_⟩
  intro notes hn
  rw [he'] at hn
  cases hn

theorem IsIntLiteral.chars {tok : List Char} (h : IsIntLiteral tok) :
    ∀ c ∈ tok, c ∈ '+' :: '-' :: digitChars := by
  obtain ⟨n, _, rfl⟩ := h
  intro c hc
  simp only [Numeral.text, List.mem_append, List.mem_map] at hc
  rcases hc with hc | ⟨d, _, rfl⟩
  · cases hs : n.sign <;> simp [hs, Sign.text] at hc <;> simp [hc]
  · exact List.mem_cons_of_mem _ (List.mem_cons_of_mem _ (digitChar_facts d).1)

theorem not_isIntLiteral_abc : ¬ IsIntLiteral "abc".toList := by
  intro h
  have := h.chars 'a' (by decide)
  revert this
  decide

/-- Witness for C6: a valid line followed by the line "abc 1". -/
theorem LoadNotes_malformed_witness :
    ∃ e, LoadNotes (some ["1000 0".toList, "abc 1".toList]) = Except.error e ∧
      e.isMalformedLine = true ∧
      ∀ notes, LoadNotes (some ["1000 0".toList, "abc 1".toList]) ≠ Except.ok notes :=
  LoadNotes_malformed ["1000 0".toList, "abc 1".toList]
    ⟨"abc 1".toList, by decide, by decide,
      Or.inr ⟨"abc".toList, by decide, not_isIntLiteral_abc⟩⟩

/-- C7 as stated fails: a line holding a single space, or two spaces, is not
skipped.  With the line, the load of an otherwise valid chart fails; without
it, the load succeeds. -/
theorem LoadNotes_whitespace_line_counterexample :
    LoadNotes (some ["1000 0".toList, " ".toList, "1500 2".toList])
      = Except.error LoadError.parseError ∧
    LoadNotes (some ["1000 0".toList, "  ".toList, "1500 2".toList])
      = Except.error LoadError.invalidChart ∧
    LoadNotes (some ["1000 0".toList, "1500 2".toList])
      = Except.ok [⟨1000, 0, true⟩, ⟨1500, 2, true⟩] := by
  decide

/-- C7, amended: `LoadNotes` silently skips every empty line (a line with no
character at all; nothing is trimmed): inserting an empty line anywhere in
the chart does not change the result of `LoadNotes`. -/
theorem LoadNotes_insert_empty (before after : List (List Char)) :
    LoadNotes (some (before ++ [] :: after)) = LoadNotes (some (before ++ after)) := by
  have hloop : ∀ acc : List Note,
      readLoop (before ++ [] :: after) acc = readLoop (before ++ after) acc := by
    induction before with
    | nil =>
      intro acc
      simp [readLoop]
    | cons line rest ih =>
      intro acc
      simp only [List.cons_append, readLoop]
      split_ifs with hempty
      · exact ih acc
      · split
        · split
          · exact ih _
          · rfl
        · rfl
  exact hloop []

/-- C8 fails on the chart "1000 4": the loader accepts the line, and the scan
at time 1000 indexes the four-element key table with 4. -/
theorem judgmentScan_lane_out_of_range :
    LoadNotes (some ["1000 4".toList]) = Except.ok [⟨1000, 4, true⟩] ∧
    keysAt 4 = none ∧
    judgmentScan (fun _ => false) 1000 [⟨1000, 4, true⟩]
      = Except.error TickError.indexOutOfRange := by
  decide


end NotesGame
